import Mathlib

/-!
# icebox: the drivers facade, the scope guard and the fdp_exec harness

A shallow embedding of

* `src/icebox/icebox/core/drivers.cpp` (the drivers facade and `drivers::find_name`),
* `src/icebox/icebox_py/defer.hpp` (the `defer_t` scope guard and the `DEFER` macro),
* `src/fdp_exec/main.cpp` (`main` and `test_core`),

followed by the properties proved about them.

Conventions.  A `std::string` is the list of its bytes (`Str`); `data()` of a string
is that list followed by the terminating NUL.  An `opt<T>` is an `Option T`.  A C++
lambda that captures by reference is a function on the pair (captured locals, backend
state).  Dereferencing an empty `opt` is undefined behaviour and is modelled by the
explicit outcome `Except.error`.

The OS backends, the engine (`core.state`, `core.sym`, `core.mem`), the PE parser, the
unwinder, the logging macros and the `fs` alias are not part of the three files.  What the
harness asks them is an input of the model (`Guest`, `Env`), and where a property needs
their behaviour (an enumeration that honours `stop`, the Paused/Running state machine, the
final path component) the definition says that it is modelled from the specification.
-/

set_option autoImplicit false

namespace Icebox

/-! ## Strings -/

/-- Bytes of a `std::string` (embedded NUL bytes are possible). -/
abbrev Str := List Nat

/-- The bytes of a string literal. -/
def bytes (s : String) : Str := s.toList.map Char.toNat

/-- The buffer behind `std::string::data()`: the contents and the terminating NUL. -/
def data (s : Str) : Str := s ++ [0]

/-- The C string a reader of a buffer sees: the bytes before the first NUL. -/
def cstr (s : Str) : Str := s.takeWhile (fun c => c ≠ 0)

/-- The `tolower` of the C locale: only `A`..`Z` are mapped. -/
def tolower (c : Nat) : Nat := if 65 ≤ c ∧ c ≤ 90 then c + 32 else c

/-- The `strcasecmp` / `_stricmp` loop over two buffers: the difference of the first pair
of lower-cased bytes that differ, `0` when both C strings end together.  Reading past the
end of a buffer reads a NUL (the buffers passed are NUL-terminated). -/
def stricmp : Str → Str → Int
  | [], s2 => (tolower 0 : Int) - (tolower (s2.headD 0) : Int)
  | c1 :: r1, s2 =>
    let result : Int := (tolower c1 : Int) - (tolower (s2.headD 0) : Int)
    if result ≠ 0 then result
    else if c1 = 0 then 0
    else stricmp r1 s2.tail

/-- The directory separator of the generic path format. -/
def sep : Nat := 47

/-- Modelled from the spec: `fs::path::filename` (the `fs` alias and the filesystem library
are not part of the sources).  The final path component in the generic format: the text
after the last directory separator, empty when the path ends with a separator. -/
def fs.filename (p : Str) : Str := (p.reverse.takeWhile (fun c => c ≠ sep)).reverse

/-- Modelled from the spec: `fs::path::generic_string`; a final path component holds no
separator to convert, so it is returned unchanged. -/
def fs.generic_string (p : Str) : Str := p

/-- ASCII case-insensitive equality of two strings, as the specification words it: the
strings are equal once every byte is lower-cased. -/
def asciiCaseEq (a b : Str) : Bool := a.map tolower == b.map tolower

/-! ## Types of the core -/

/-- Result of a visitor: `walk_e::next` / `walk_e::stop` (`WALK_NEXT` / `WALK_STOP`). -/
inductive walk_e where
  | next
  | stop
  deriving DecidableEq, Repr

/-- The driver handle `driver_t`. -/
structure driver_t where
  id : Nat
  deriving DecidableEq, Repr

/-- The address range `span_t`. -/
structure span_t where
  addr : Nat
  size : Nat
  deriving DecidableEq, Repr

/-- The breakpoint identifier `os::bpid_t`. -/
abbrev bpid_t := Nat

/-- A local `opt<T>` variable, kept as the history of the values assigned to it (oldest
first); a freshly constructed `opt<T>{}` has no assignment. -/
structure OptVar (α : Type) where
  writes : List α

/-- The declaration `opt<T>{}`. -/
def OptVar.empty {α : Type} : OptVar α := ⟨[]⟩

/-- The assignment `found = v`. -/
def OptVar.assign {α : Type} (x : OptVar α) (v : α) : OptVar α := ⟨x.writes ++ [v]⟩

/-- The current value of the variable: the last value assigned, if any. -/
def OptVar.value {α : Type} (x : OptVar α) : Option α := x.writes.getLast?

/-- A visitor `on_driver_fn` whose closure captures locals of type `V` by reference and
reaches the backend state `σ` through `core`. -/
abbrev on_driver_fn (V σ : Type) := driver_t → V × σ → walk_e × (V × σ)

/-- The capability set of `interfaces/if_os.hpp` used by the drivers facade, over a backend
state `σ`; `E` is the type of the event callback `on_event_fn`. -/
structure IfOs (σ E : Type) where
  driver_list : {V : Type} → on_driver_fn V σ → V × σ → Bool × (V × σ)
  driver_find : Nat → σ → Option driver_t × σ
  driver_name : driver_t → σ → Option Str × σ
  driver_span : driver_t → σ → Option span_t × σ
  listen_drv_create : E → σ → Option bpid_t × σ

/-- The part of `core::Core` the drivers facade uses: the backend `os_`. -/
structure Core (σ E : Type) where
  os_ : IfOs σ E

/-! ## drivers.cpp -/

/-- `drivers::list`. -/
def drivers.list {σ E V : Type} (core : Core σ E) (on_driver : on_driver_fn V σ) :
    V × σ → Bool × (V × σ) :=
  core.os_.driver_list on_driver

/-- `drivers::find`. -/
def drivers.find {σ E : Type} (core : Core σ E) (addr : Nat) : σ → Option driver_t × σ :=
  core.os_.driver_find addr

/-- `drivers::name`. -/
def drivers.name {σ E : Type} (core : Core σ E) (drv : driver_t) : σ → Option Str × σ :=
  core.os_.driver_name drv

/-- `drivers::span`. -/
def drivers.span {σ E : Type} (core : Core σ E) (drv : driver_t) : σ → Option span_t × σ :=
  core.os_.driver_span drv

/-- `drivers::listen_create`. -/
def drivers.listen_create {σ E : Type} (core : Core σ E) (on_load : E) :
    σ → Option bpid_t × σ :=
  core.os_.listen_drv_create on_load

/-- The lambda of `drivers::find_name`; it captures `found`, `core` and `name` by
reference.  `name` is the viewed text of a NUL-terminated `std::string_view`, so that
`name.data()` is the buffer `data name`. -/
def drivers.find_name.visitor {σ E : Type} (core : Core σ E) (name : Str) :
    on_driver_fn (OptVar driver_t) σ :=
  fun drv w =>
    let found := w.1
    let (drv_path, s) := drivers.name core drv w.2
    match drv_path with
    | none => (walk_e.next, (found, s))
    | some path =>
      let drv_name := fs.filename path
      if stricmp (data (fs.generic_string drv_name)) (data name) ≠ 0 then
        (walk_e.next, (found, s))
      else
        (walk_e.stop, (found.assign drv, s))

/-- The body of `drivers::find_name` up to the `return`: the variable `found` and the
backend state after the call of `drivers::list`. -/
def drivers.find_name.run {σ E : Type} (core : Core σ E) (name : Str) (s : σ) :
    OptVar driver_t × σ :=
  (drivers.list core (drivers.find_name.visitor core name) (OptVar.empty, s)).2

/-- `drivers::find_name`. -/
def drivers.find_name {σ E : Type} (core : Core σ E) (name : Str) (s : σ) :
    Option driver_t × σ :=
  let r := drivers.find_name.run core name s
  (r.1.value, r.2)

/-! ## A backend that walks a driver list -/

/-- What a backend call leaves in the call record. -/
inductive OsCall where
  | visited (drv : driver_t) (answer : walk_e)
  | name (drv : driver_t)
  | span (drv : driver_t)
  | find (addr : Nat)
  | listen
  deriving DecidableEq, Repr

/-- The guest as the backend reads it while the guest is paused. -/
structure Guest where
  drivers : List driver_t
  names : driver_t → Option Str
  spans : driver_t → Option span_t
  owner : Nat → Option driver_t

/-- Modelled from the spec: the enumeration loop of a backend `driver_list` (the backends
are not part of the sources).  The visitor is invoked once per element, in enumeration
order, and the walk ends at the first `stop`; every invocation is recorded with its
answer. -/
def walkDrivers {V : Type} (f : on_driver_fn V (List OsCall)) :
    List driver_t → V × List OsCall → V × List OsCall
  | [], w => w
  | d :: ds, w =>
    match f d w with
    | (walk_e.stop, (v, log)) => (v, log ++ [OsCall.visited d walk_e.stop])
    | (walk_e.next, (v, log)) => walkDrivers f ds (v, log ++ [OsCall.visited d walk_e.next])

/-- Modelled from the spec: an OS backend over a paused guest.  Its state is the record of
the calls made to it. -/
def listOs (g : Guest) : IfOs (List OsCall) Unit where
  driver_list := fun f w => (true, walkDrivers f g.drivers w)
  driver_find := fun addr log => (g.owner addr, log ++ [OsCall.find addr])
  driver_name := fun drv log => (g.names drv, log ++ [OsCall.name drv])
  driver_span := fun drv log => (g.spans drv, log ++ [OsCall.span drv])
  listen_drv_create := fun _ log => (none, log ++ [OsCall.listen])

/-- The core over the list-walking backend. -/
def listCore (g : Guest) : Core (List OsCall) Unit := ⟨listOs g⟩

/-- The specification's matching predicate: the driver path is readable and its final path
component, read as a C string, equals the query, read as a C string, under ASCII
case-insensitive comparison. -/
def nameMatches (g : Guest) (query : Str) (d : driver_t) : Bool :=
  match g.names d with
  | none => false
  | some path => asciiCaseEq (cstr (fs.filename path)) (cstr query)

/-- The result of `drivers::find_name` on a guest, with a fresh call record. -/
def findName (g : Guest) (query : Str) : Option driver_t :=
  (drivers.find_name (listCore g) query []).1

/-- The calls a walk up to the first match leaves in the call record. -/
def walkCalls (m : driver_t → Bool) (ds : List driver_t) : List OsCall :=
  (ds.takeWhile (fun d => !m d)).flatMap
      (fun d => [OsCall.name d, OsCall.visited d walk_e.next]) ++
    (ds.find? m).toList.flatMap (fun d => [OsCall.name d, OsCall.visited d walk_e.stop])

/-- The guest with another enumeration order. -/
def Guest.withDrivers (g : Guest) (ds : List driver_t) : Guest := ⟨ds, g.names, g.spans, g.owner⟩

/-- The guest with other driver paths. -/
def Guest.withNames (g : Guest) (names : driver_t → Option Str) : Guest :=
  ⟨g.drivers, names, g.spans, g.owner⟩

/-- A path made of an optional directory part and a final component. -/
def joinPath (dir : Option Str) (comp : Str) : Str :=
  match dir with
  | none => comp
  | some d => d ++ sep :: comp

/-- A guest with four drivers: the first has no readable name, the second and the fourth
have the same file name up to case, in different directories. -/
def demoGuest : Guest where
  drivers := [⟨1⟩, ⟨2⟩, ⟨3⟩, ⟨4⟩]
  names := fun d =>
    if d.id = 2 then some (bytes "/SystemRoot/system32/drivers/NTFS.sys")
    else if d.id = 3 then some (bytes "/SystemRoot/system32/drivers/tcpip.sys")
    else if d.id = 4 then some (bytes "/other/ntfs.SYS")
    else none
  spans := fun _ => none
  owner := fun _ => none

/-- Final path components for the demonstration guest: driver 2 is `ntfs.sys`, the others
have no readable path. -/
def demoComponents (d : driver_t) : Option Str :=
  if d.id = 2 then some (bytes "ntfs.sys") else none

/-! ## defer.hpp -/

/-- A callable passed to `DEFER`, identified by a label; invoking it leaves the label in the
trace of invocations. -/
abbrev Op := Nat

/-- The scope guard `defer_t<T>`: it holds the operation given to its constructor. -/
structure defer_t (T : Type) where
  op : T

/-- The destructor `~defer_t()`: the one statement `op();`. -/
def defer_t.destroy (d : defer_t Op) (trace : List Op) : List Op := trace ++ [d.op]

/-- `make_defer`: `return defer_t<T>{op};` (the returned prvalue initialises the declared
variable, no temporary guard exists). -/
def make_defer {T : Type} (op : T) : defer_t T := ⟨op⟩

/-- The spelling of a preprocessing token. -/
abbrev Spelling := List Char

/-- The decimal spelling of the integer literal `__COUNTER__` expands to. -/
def decimal (n : Nat) : Spelling :=
  if n = 0 then [Char.ofNat 48] else (Nat.digits 10 n).reverse.map (fun d => Char.ofNat (48 + d))

/-- `#define CONCAT__(X, Y)  Y`. -/
def CONCAT__ (_X Y : Spelling) : Spelling := Y

/-- `#define CONCAT_(X, Y)   CONCAT__(~, X##Y)`: the operator `##` pastes two spellings. -/
def CONCAT_ (X Y : Spelling) : Spelling := CONCAT__ [Char.ofNat 126] (X ++ Y)

/-- `#define CONCAT(X, Y)    CONCAT_(X, Y)`: the arguments are expanded before the call of
`CONCAT_`. -/
def CONCAT (X Y : Spelling) : Spelling := CONCAT_ X Y

/-- A statement of a block: `DEFER(op);` or an ordinary statement that invokes `op`. -/
inductive Stmt where
  | DEFER (op : Op)
  | call (op : Op)
  deriving DecidableEq, Repr

/-- A block during its execution: the value of `__COUNTER__`, the guards declared so far
(name and object, in declaration order) and the invocations made so far. -/
structure Scope where
  counter : Nat
  vars : List (Spelling × defer_t Op)
  trace : List Op

/-- One statement.  `DEFER(X)` is `const auto CONCAT(defer_, __COUNTER__) = make_defer(X)`:
it declares a guard and consumes one value of `__COUNTER__`. -/
def Stmt.exec : Stmt → Scope → Scope
  | Stmt.DEFER x, s =>
    ⟨s.counter + 1, s.vars ++ [(CONCAT "defer_".toList (decimal s.counter), make_defer x)],
      s.trace⟩
  | Stmt.call x, s => ⟨s.counter, s.vars, s.trace ++ [x]⟩

/-- The exit of the block: the automatic variables are destroyed in the reverse order of
their declaration. -/
def Scope.exit (s : Scope) : List Op :=
  s.vars.reverse.foldl (fun trace v => v.2.destroy trace) s.trace

/-- The execution of a block whose statements are `body` (the statements executed before
the block is left), `__COUNTER__` being `counter` at its start: the names declared and the
invocations made, those of the exit included. -/
def runScope (counter : Nat) (body : List Stmt) : List Spelling × List Op :=
  let s := body.foldl (fun s stmt => stmt.exec s) ⟨counter, [], []⟩
  (s.vars.map (fun v => v.1), s.exit)

/-- The operations of the ordinary statements of a block, in order. -/
def callsOf (body : List Stmt) : List Op :=
  body.filterMap (fun st => match st with | Stmt.call x => some x | Stmt.DEFER _ => none)

/-- The operations given to the `DEFER`s of a block, in declaration order. -/
def defersOf (body : List Stmt) : List Op :=
  body.filterMap (fun st => match st with | Stmt.DEFER x => some x | Stmt.call _ => none)

/-! ## main.cpp -/

/-- The process handle `proc_t`. -/
structure proc_t where
  id : Nat
  dtb : Nat
  deriving DecidableEq, Repr

/-- The thread handle `thread_t`. -/
structure thread_t where
  id : Nat
  deriving DecidableEq, Repr

/-- One step of a call stack, `callstack::callstep_t`. -/
structure callstep_t where
  addr : Nat
  deriving DecidableEq, Repr

/-- A resolved address, `sym::Cursor`. -/
structure Cursor where
  module : String
  symbol : String
  offset : Nat
  deriving DecidableEq, Repr

/-- The join modes `os::JOIN_ANY_MODE` and `os::JOIN_USER_MODE`. -/
inductive join_e where
  | JOIN_ANY_MODE
  | JOIN_USER_MODE
  deriving DecidableEq, Repr

/-- Undefined behaviour the harness can run into: `operator->` or `operator*` applied to an
empty `opt`; the text names the expression. -/
inductive Fault where
  | empty_opt (expr : String)
  deriving DecidableEq, Repr

/-- The two breakpoint callbacks of `test_core`, named after the symbol they are set on. -/
inductive Callback where
  | SwapContext
  | RtlAllocateHeap
  deriving DecidableEq, Repr

/-- What the harness does to the engine, in program order: the diagnostics of `FAIL`, the
setup calls, the calls on `core.state`, `proc_join` and the calls on the syscall plugin.
`LOG(INFO, ...)` lines are not recorded, nor is what the destructors of the breakpoint
handles `bp` and of the plugin do when their block ends. -/
inductive Call where
  | error (msg : String)
  | core_setup (name : Str)
  | pe_setup
  | pause
  | resume
  | wait
  | test_core
  | set_breakpoint (addr : Nat) (scope : Option proc_t) (cb : Callback)
  | proc_join (proc : proc_t) (mode : join_e)
  | plugin_setup (proc : proc_t)
  | plugin_generate (file : String)
  deriving DecidableEq, Repr

/-- A computation of the harness: it extends the record of calls, or runs into undefined
behaviour. -/
abbrev H (α : Type) := StateT (List Call) (Except Fault) α

/-- Record one call. -/
def emit (c : Call) : H Unit := modify (fun calls => calls ++ [c])

/-- `opt::operator->` / `operator*`: the value of a non-empty `opt`, undefined behaviour on
an empty one. -/
def deref {α : Type} (expr : String) : Option α → H α
  | some a => pure a
  | none => throw (Fault.empty_opt expr)

/-- Modelled from the spec: the macro `FAIL(VALUE, FMT, ...)` of `log.hpp` (not part of the
sources): it logs the diagnostic as an error and returns `VALUE` from the function. -/
def FAIL {α : Type} (value : α) (msg : String) : H α := do
  emit (Call.error msg)
  pure value

/-- The loop `for(size_t i = 0; i < n; ++i) body`, for a body that does not use `i`. -/
def forLoop : Nat → H Unit → H Unit
  | 0, _ => pure ()
  | n + 1, body => do
    body
    forLoop n body

/-- Modelled from the spec: the enumeration loop of a backend `list` operation
(`mod_list`, `thread_list`, ...; the backends are not part of the sources): the visitor is
invoked once per element, in order, until it answers stop. -/
def walkM {α V : Type} (f : α → V → H (walk_e × V)) : List α → V → H V
  | [], v => pure v
  | a :: rest, v => do
    let r ← f a v
    match r.1 with
    | walk_e.stop => pure r.2
    | walk_e.next => walkM f rest r.2

/-- What the engine answers about one module of the target process while the second
module enumeration of `test_core` visits it: `mod_name`, `mod_span`,
`pe.get_directory_entry`, the first `read_virtual`, `pe.parse_debug_dir`, the second
`read_virtual` and `sym.insert`. -/
structure ModAnswers where
  name : Option Str
  span : Option span_t
  debug_dir : Option span_t
  debug_read : Bool
  codeview : Option span_t
  codeview_read : Bool
  insert : Bool
  deriving DecidableEq, Repr

/-- What the engine answers to the harness outside of the breakpoint callbacks. -/
structure Env where
  argc : Int
  argv1 : Str
  core_setup : Bool
  pe_setup : Bool
  drivers : List (driver_t × Option Str × Option span_t)
  proc_current : Option proc_t
  proc_name : proc_t → Option Str
  thread_current : Option thread_t
  procs : List proc_t
  proc_find : Str → Option proc_t
  mods : List ModAnswers
  threads : List (thread_t × Option Nat)
  sym_find : Nat → Option Cursor
  sym_symbol : String → String → Option Nat

/-- The lambda of the second `mod_list` of `test_core` (lines 60 to 87); `modi` is the
captured counter, the captured `buffer` only changes its size. -/
def test_core.mod_visitor (m : ModAnswers) (modi : Nat) : H (walk_e × Nat) :=
  let name := m.name
  let span := m.span
  if name.isNone || span.isNone then
    pure (walk_e.next, modi)
  else do
    let modi := modi + 1
    let debug_dir ← deref "debug_dir" m.debug_dir
    let _buffer_size := debug_dir.size
    let ok := m.debug_read
    if !ok then
      pure (walk_e.next, modi)
    else do
      let codeview ← deref "codeview" m.codeview
      let _buffer_size := codeview.size
      let ok := m.codeview_read
      if !ok then
        FAIL (walk_e.next, modi) "Unable to read IMAGE_CODEVIEW (RSDS)"
      else
        let ok := m.insert
        if !ok then
          pure (walk_e.next, modi)
        else
          pure (walk_e.next, modi)

/-- The lambda of the first `mod_list` of `test_core`: it counts the modules. -/
def test_core.mod_counter (_m : ModAnswers) (modcount : Nat) : H (walk_e × Nat) :=
  pure (walk_e.next, modcount + 1)

/-- The lambda of `thread_list`: it logs the thread with the symbol of its program counter
when that can be read. -/
def test_core.thread_visitor (env : Env) (t : thread_t × Option Nat) (u : Unit) :
    H (walk_e × Unit) :=
  match t.2 with
  | none => pure (walk_e.next, u)
  | some rip =>
    let _name := env.sym_find rip
    pure (walk_e.next, u)

/-- The lambdas of `driver_list` and `proc_list`: they log the element, with `<noname>` for
a missing name, and go on. -/
def test_core.log_visitor {α : Type} (_a : α) (u : Unit) : H (walk_e × Unit) :=
  pure (walk_e.next, u)

/-- The constant `proc_target`. -/
def proc_target : Str := bytes "notepad.exe"

/-- `test_core` (lines 17 to 182). -/
def test_core (env : Env) : H Bool := do
  let _ ← walkM test_core.log_visitor env.drivers ()
  let pc ← deref "pc" env.proc_current
  let _ ← deref "core.os->proc_name(*pc)" (env.proc_name pc)
  let _tc ← deref "tc" env.thread_current
  let _ ← walkM test_core.log_visitor env.procs ()
  match env.proc_find proc_target with
  | none => pure false
  | some target => do
    let _ ← deref "core.os->proc_name(*target)" (env.proc_name target)
    emit (Call.proc_join target join_e.JOIN_ANY_MODE)
    emit (Call.proc_join target join_e.JOIN_USER_MODE)
    let _modcount ← walkM test_core.mod_counter env.mods 0
    let _modi ← walkM test_core.mod_visitor env.mods 0
    let _ ← walkM (test_core.thread_visitor env) env.threads ()
    -- check breakpoints
    let ptr ← deref "ptr" (env.sym_symbol "nt" "SwapContext")
    emit (Call.set_breakpoint ptr none Callback.SwapContext)
    forLoop 16 (do emit Call.resume; emit Call.wait)
    -- test callstack
    let func_addr ← deref "func_addr" (env.sym_symbol "ntdll" "RtlAllocateHeap")
    emit (Call.set_breakpoint func_addr (some target) Callback.RtlAllocateHeap)
    forLoop 3 (do emit Call.resume; emit Call.wait)
    -- test syscall plugin
    emit (Call.plugin_setup target)
    forLoop 100 (do emit Call.resume; emit Call.wait)
    emit (Call.plugin_generate "output.json")
    pure true

/-- `main` (lines 185 to 213); `argc` is the argument count after `loguru::init`. -/
def main (env : Env) : H Int :=
  if env.argc ≠ 2 then
    FAIL (-1) "usage: fdp_exec <name>"
  else do
    let name := env.argv1
    emit (Call.core_setup name)
    let ok := env.core_setup
    if !ok then
      FAIL (-1) "unable to start core at \x7b\x7d"
    else do
      emit Call.pe_setup
      let ok := env.pe_setup
      if !ok then
        FAIL (-1) "unable to retrieve PE format informations from pdb"
      else do
        emit Call.pause
        emit Call.test_core
        let valid ← test_core env
        emit Call.resume
        pure (if valid then 0 else 1)

/-- The depth `cs_depth` of the call-stack test. -/
def cs_depth : Int := 40

/-- The lambda given to `get_callstack` (lines 142 to 154); it captures the counter `k` by
reference, the second component of the state is the list of lines it logs. -/
def test_core.callstack_visitor (sym_find : Nat → Option Cursor) (callstep : callstep_t)
    (st : Int × List (Int × Cursor)) : walk_e × (Int × List (Int × Cursor)) :=
  let k := st.1
  let cursor := sym_find callstep.addr
  let cursor := match cursor with
    | none => Cursor.mk "_" "_" callstep.addr
    | some c => c
  let log := st.2 ++ [(k, cursor)]
  let k := k + 1
  if k ≥ cs_depth then (walk_e.stop, (k, log))
  else (walk_e.next, (k, log))

/-- Modelled from the spec: `get_callstack` (the unwinder is not part of the sources).
`chain i` is the callstep the frame walk yields at step `i`, `none` once the walk ends on a
failed read or an implausible frame pointer; the chain may never end.  The visitor is
invoked on each step until it answers stop.  `fuel` bounds the steps, `none` is a walk
that did not end within it. -/
def get_callstack {V : Type} (chain : Nat → Option callstep_t)
    (visit : callstep_t → V → walk_e × V) : Nat → Nat → V → Option V
  | 0, _, _ => none
  | fuel + 1, i, v =>
    match chain i with
    | none => some v
    | some callstep =>
      match visit callstep v with
      | (walk_e.stop, v1) => some v1
      | (walk_e.next, v1) => get_callstack chain visit fuel (i + 1) v1

/-- The callback of the breakpoint on `RtlAllocateHeap` (lines 135 to 156) for one hit:
`int k = 0;`, then the walk of the call stack of the hit; the result is the lines logged. -/
def test_core.on_RtlAllocateHeap (sym_find : Nat → Option Cursor)
    (chain : Nat → Option callstep_t) (fuel : Nat) : Option (List (Int × Cursor)) :=
  let k : Int := 0
  (get_callstack chain (test_core.callstack_visitor sym_find) fuel 0 (k, [])).map
    (fun st => st.2)

/-- The execution state of the engine. -/
inductive ExecutionState where
  | Paused
  | Running
  deriving DecidableEq, Repr

/-- Modelled from the spec: the Paused/Running state machine of the execution control
(the engine is not part of the sources).  `pause` leaves the engine Paused, `resume`
Running; `wait` returns after the dispatch of a trap, the engine Paused; `proc_join` returns
on the hit of its transient breakpoint, the engine Paused; no other call changes the
state. -/
def ExecutionState.step : ExecutionState → Call → ExecutionState
  | _, Call.pause => ExecutionState.Paused
  | _, Call.resume => ExecutionState.Running
  | _, Call.wait => ExecutionState.Paused
  | _, Call.proc_join _ _ => ExecutionState.Paused
  | s, _ => s

/-- The state after a sequence of calls. -/
def ExecutionState.after (s : ExecutionState) (calls : List Call) : ExecutionState :=
  calls.foldl ExecutionState.step s

/-- The execution-control calls among the calls of the harness. -/
def isControl : Call → Bool
  | Call.pause => true
  | Call.resume => true
  | Call.wait => true
  | _ => false

/-- The module is one the second module enumeration gets through: when its name and span
are readable its debug directory entry is present, and when that directory can be read the
CodeView record can be parsed. -/
def ModAnswers.handled (m : ModAnswers) : Bool :=
  m.name.isNone || m.span.isNone ||
    (m.debug_dir.isSome && (!m.debug_read || m.codeview.isSome))

/-- The diagnostics the second module enumeration issues for a module. -/
def ModAnswers.diagnostics (m : ModAnswers) : List Call :=
  if m.name.isSome && m.span.isSome && m.debug_read && !m.codeview_read then
    [Call.error "Unable to read IMAGE_CODEVIEW (RSDS)"]
  else []

/-- Every `opt` that `test_core` dereferences without a check is non-empty: the current
process, its name and the current thread and, when the target process is found, its name,
the debug directory and CodeView record of the modules visited and the two symbols the
breakpoints are set on. -/
def Env.defined (env : Env) : Prop :=
  (∃ pc, env.proc_current = some pc ∧ (env.proc_name pc).isSome = true) ∧
  env.thread_current.isSome = true ∧
  ∀ target, env.proc_find proc_target = some target →
    (env.proc_name target).isSome = true ∧
    (∀ m ∈ env.mods, m.handled = true) ∧
    (env.sym_symbol "nt" "SwapContext").isSome = true ∧
    (env.sym_symbol "ntdll" "RtlAllocateHeap").isSome = true

/-- Every `wait` of a sequence of calls comes right after a `resume`; `prev` is the call
before the sequence. -/
def waitsFollowResume (prev : Option Call) : List Call → Bool
  | [] => true
  | c :: rest =>
    (c != Call.wait || prev == some Call.resume) && waitsFollowResume (some c) rest

/-- A module with a readable name and span whose image has no debug directory entry. -/
def moduleWithoutDebugDir : ModAnswers :=
  ⟨some (bytes "ntdll.dll"), some ⟨140711718715392, 2097152⟩, none, true, none, true, true⟩

/-- A module whose debug directory is read but holds no CodeView record. -/
def moduleWithoutCodeView : ModAnswers :=
  ⟨some (bytes "ntdll.dll"), some ⟨140711718715392, 2097152⟩, some ⟨140711718719488, 28⟩,
    true, none, true, true⟩

/-- A module for which every step of the visitor succeeds. -/
def moduleComplete : ModAnswers :=
  ⟨some (bytes "kernel32.dll"), some ⟨140711700000000, 1000000⟩,
    some ⟨140711700004096, 28⟩, true, some ⟨140711700008192, 64⟩, true, true⟩

/-- Answers of a guest in which `notepad.exe` runs; `mods` are its modules. -/
def demoEnv (argc : Int) (core_setup pe_setup : Bool) (found : Bool)
    (mods : List ModAnswers) : Env where
  argc := argc
  argv1 := bytes "win10"
  core_setup := core_setup
  pe_setup := pe_setup
  drivers := [(⟨1⟩, none, none)]
  proc_current := some ⟨4, 1⟩
  proc_name := fun _ => some (bytes "System")
  thread_current := some ⟨8⟩
  procs := [⟨4, 1⟩, ⟨1200, 2⟩]
  proc_find := fun _ => if found then some ⟨1200, 2⟩ else none
  mods := mods
  threads := [(⟨8⟩, some 4096), (⟨9⟩, none)]
  sym_find := fun _ => none
  sym_symbol := fun _ _ => some 1342177279

/-- The calls of the three breakpoint tests of `test_core`: each sets up its breakpoint or
plugin and then resumes and waits 16, 3 and 100 times. -/
def loopCalls (target : proc_t) (ptr func_addr : Nat) : List Call :=
  Call.set_breakpoint ptr none Callback.SwapContext ::
      (List.replicate 16 [Call.resume, Call.wait]).flatten ++
    Call.set_breakpoint func_addr (some target) Callback.RtlAllocateHeap ::
      (List.replicate 3 [Call.resume, Call.wait]).flatten ++
    Call.plugin_setup target ::
      (List.replicate 100 [Call.resume, Call.wait]).flatten ++
    [Call.plugin_generate "output.json"]

/-- The calls of `test_core` once the target process is found: the two joins, the
diagnostics of the module enumeration, and the three breakpoint tests. -/
def callsWhenFound (target : proc_t) (ptr func_addr : Nat) (diagnostics : List Call) :
    List Call :=
  [Call.proc_join target join_e.JOIN_ANY_MODE, Call.proc_join target join_e.JOIN_USER_MODE] ++
    (diagnostics ++ loopCalls target ptr func_addr)

/-- Answers of a guest in which `notepad.exe` runs and all its modules are complete, the
symbol engine answering `symbols` to `sym.symbol`. -/
def envWithSymbols (symbols : String → String → Option Nat) : Env where
  argc := 2
  argv1 := bytes "win10"
  core_setup := true
  pe_setup := true
  drivers := [(⟨1⟩, none, none)]
  proc_current := some ⟨4, 1⟩
  proc_name := fun _ => some (bytes "System")
  thread_current := some ⟨8⟩
  procs := [⟨4, 1⟩, ⟨1200, 2⟩]
  proc_find := fun _ => some ⟨1200, 2⟩
  mods := [moduleComplete]
  threads := [(⟨8⟩, some 4096)]
  sym_find := fun _ => none
  sym_symbol := symbols

/-- A symbol engine that knows the kernel symbols only: `ntdll` has no symbol store. -/
def kernelSymbolsOnly (module _symbol : String) : Option Nat :=
  if module = "nt" then some 1342177279 else none

/-! # Properties -/

/-! ## Lemmas on strings -/

theorem tolower_eq_zero_iff (c : Nat) : tolower c = 0 ↔ c = 0 := by
  unfold tolower
  by_cases h : 65 ≤ c ∧ c ≤ 90
  · rw [if_pos h]
    obtain ⟨h1, _⟩ := h
    constructor <;> intro h0 <;> omega
  · rw [if_neg h]

theorem cstr_nil : cstr [] = [] := rfl

theorem cstr_cons_zero (r : Str) : cstr (0 :: r) = [] := by
  simp [cstr]

theorem cstr_cons_ne (c : Nat) (r : Str) (h : c ≠ 0) : cstr (c :: r) = c :: cstr r := by
  simp [cstr, List.takeWhile_cons, h]

theorem cstr_data (s : Str) : cstr (data s) = cstr s := by
  induction s with
  | nil => simp [cstr, data]
  | cons c r ih =>
    by_cases h : c = 0
    · subst h
      simp [data, cstr_cons_zero]
    · have e : data (c :: r) = c :: data r := rfl
      rw [e, cstr_cons_ne c _ h, cstr_cons_ne c _ h, ih]

theorem stricmp_nil (s2 : Str) :
    stricmp [] s2 = (tolower 0 : Int) - (tolower (s2.headD 0) : Int) := by
  cases s2 <;> rfl

theorem stricmp_cons (c1 : Nat) (r1 s2 : Str) :
    stricmp (c1 :: r1) s2 =
      if (tolower c1 : Int) - (tolower (s2.headD 0) : Int) ≠ 0 then
        (tolower c1 : Int) - (tolower (s2.headD 0) : Int)
      else if c1 = 0 then 0 else stricmp r1 s2.tail := by
  cases s2 <;> rfl

theorem tolower_zero : tolower 0 = 0 := by decide

/-- The comparison loop answers `0` exactly when the two C strings are equal once
lower-cased. -/
theorem stricmp_eq_zero_iff (s1 s2 : Str) :
    stricmp s1 s2 = 0 ↔ (cstr s1).map tolower = (cstr s2).map tolower := by
  induction s1 generalizing s2 with
  | nil =>
    rw [stricmp_nil, tolower_zero]
    cases s2 with
    | nil => simp [cstr, tolower_zero]
    | cons c2 r2 =>
      by_cases h2 : c2 = 0
      · subst h2
        simp [cstr_cons_zero, cstr_nil, tolower_zero]
      · have := (tolower_eq_zero_iff c2).not.mpr h2
        rw [cstr_cons_ne c2 r2 h2]
        simp only [List.headD_cons, cstr_nil, List.map_nil, List.map_cons]
        constructor
        · intro h; omega
        · intro h; cases h
  | cons c1 r1 ih =>
    rw [stricmp_cons]
    cases s2 with
    | nil =>
      simp only [List.headD_nil, tolower_zero, List.tail_nil, cstr_nil, List.map_nil]
      by_cases h1 : c1 = 0
      · subst h1
        simp [cstr_cons_zero, tolower_zero]
      · have := (tolower_eq_zero_iff c1).not.mpr h1
        rw [cstr_cons_ne c1 r1 h1]
        have hne : ((tolower c1 : Int) - ((0 : Nat) : Int)) ≠ 0 := by omega
        simp only [hne, ne_eq, not_false_eq_true, if_true, List.map_cons]
        constructor
        · intro h; exact h.elim
        · intro h; cases h
    | cons c2 r2 =>
      simp only [List.headD_cons, List.tail_cons]
      by_cases hd : (tolower c1 : Int) - (tolower c2 : Int) = 0
      · have hl : tolower c1 = tolower c2 := by omega
        simp only [hd, ne_eq, not_true_eq_false, if_false]
        by_cases h1 : c1 = 0
        · subst h1
          have h2 : c2 = 0 := (tolower_eq_zero_iff c2).mp (by rw [← hl, tolower_zero])
          subst h2
          simp [cstr_cons_zero]
        · have h2 : c2 ≠ 0 := by
            intro h2
            subst h2
            exact h1 ((tolower_eq_zero_iff c1).mp (by rw [hl, tolower_zero]))
          rw [if_neg h1, cstr_cons_ne c1 r1 h1, cstr_cons_ne c2 r2 h2, ih r2]
          simp [hl]
      · have hl : tolower c1 ≠ tolower c2 := by omega
        simp only [hd, ne_eq, not_false_eq_true, if_true, false_iff]
        by_cases h1 : c1 = 0
        · subst h1
          have h2 : c2 ≠ 0 := by
            intro h2
            subst h2
            exact hl rfl
          rw [cstr_cons_zero, cstr_cons_ne c2 r2 h2]
          simp
        · rw [cstr_cons_ne c1 r1 h1]
          by_cases h2 : c2 = 0
          · subst h2
            rw [cstr_cons_zero]
            simp
          · rw [cstr_cons_ne c2 r2 h2]
            simp [hl]

/-! ## Lemmas on the final path component -/

theorem filename_no_sep (p : Str) : sep ∉ fs.filename p := by
  intro h
  have h1 : sep ∈ p.reverse.takeWhile (fun c => c ≠ sep) := by
    simpa [fs.filename] using h
  have h2 := List.mem_takeWhile_imp h1
  simp at h2

theorem takeWhile_append_sep (a b : Str) (h : sep ∉ a) :
    (a ++ sep :: b).takeWhile (fun c => c ≠ sep) = a := by
  induction a with
  | nil => simp
  | cons c r ih =>
    have hc : c ≠ sep := fun e => h (by simp [e])
    have hr : sep ∉ r := fun e => h (by simp [e])
    simpa [List.takeWhile_cons, hc] using ih hr

theorem takeWhile_no_sep (a : Str) (h : sep ∉ a) :
    a.takeWhile (fun c => c ≠ sep) = a := by
  induction a with
  | nil => simp
  | cons c r ih =>
    have hc : c ≠ sep := fun e => h (by simp [e])
    have hr : sep ∉ r := fun e => h (by simp [e])
    simpa [List.takeWhile_cons, hc] using ih hr

/-- The final component of `dir/comp` is `comp`. -/
theorem filename_dir (dir comp : Str) (h : sep ∉ comp) :
    fs.filename (dir ++ sep :: comp) = comp := by
  have hr : sep ∉ comp.reverse := by simpa using h
  unfold fs.filename
  rw [List.reverse_append, List.reverse_cons, List.append_assoc, List.singleton_append,
    takeWhile_append_sep _ _ hr, List.reverse_reverse]

/-- The final component of a path without a directory part is the path. -/
theorem filename_plain (comp : Str) (h : sep ∉ comp) : fs.filename comp = comp := by
  have hr : sep ∉ comp.reverse := by simpa using h
  unfold fs.filename
  rw [takeWhile_no_sep _ hr, List.reverse_reverse]

theorem tolower_eq_sep_iff (c : Nat) : tolower c = sep ↔ c = sep := by
  unfold tolower sep
  by_cases h : 65 ≤ c ∧ c ≤ 90
  · rw [if_pos h]
    obtain ⟨h1, _⟩ := h
    constructor <;> intro h0 <;> omega
  · rw [if_neg h]

theorem cstr_subset (s : Str) (c : Nat) (h : c ∈ cstr s) : c ∈ s :=
  (List.takeWhile_sublist _).subset h

/-- A query with a separator equals no final path component. -/
theorem asciiCaseEq_sep (path query : Str) (h : sep ∈ cstr query) :
    asciiCaseEq (cstr (fs.filename path)) (cstr query) = false := by
  by_contra hne
  have he : (cstr (fs.filename path)).map tolower = (cstr query).map tolower := by
    simpa [asciiCaseEq] using hne
  have h1 : tolower sep ∈ (cstr query).map tolower := List.mem_map_of_mem _ h
  rw [← he] at h1
  obtain ⟨c, hc, hcs⟩ := List.mem_map.mp h1
  have h2 : tolower sep = sep := by decide
  rw [h2] at hcs
  have h3 : c = sep := (tolower_eq_sep_iff c).mp hcs
  subst h3
  exact filename_no_sep path (cstr_subset _ _ hc)

/-! ## Lemmas on the walk of `drivers::find_name` -/

/-- One invocation of the visitor over the list-walking backend. -/
theorem visitor_listCore (g : Guest) (query : Str) (d : driver_t) (found : OptVar driver_t)
    (log : List OsCall) :
    drivers.find_name.visitor (listCore g) query d (found, log) =
      if nameMatches g query d then
        (walk_e.stop, (found.assign d, log ++ [OsCall.name d]))
      else (walk_e.next, (found, log ++ [OsCall.name d])) := by
  unfold drivers.find_name.visitor drivers.name listCore listOs nameMatches
  cases hn : g.names d with
  | none => simp [hn]
  | some path =>
    simp only [fs.generic_string]
    by_cases hm : asciiCaseEq (cstr (fs.filename path)) (cstr query) = true
    · have h0 : stricmp (data (fs.filename path)) (data query) = 0 := by
        rw [stricmp_eq_zero_iff, cstr_data, cstr_data]
        simpa [asciiCaseEq] using hm
      simp [hn, hm, h0]
    · have h0 : stricmp (data (fs.filename path)) (data query) ≠ 0 := by
        rw [Ne, stricmp_eq_zero_iff, cstr_data, cstr_data]
        simpa [asciiCaseEq] using hm
      simp [hn, hm, h0]

theorem walk_find_name (g : Guest) (query : Str) (ds : List driver_t)
    (found : OptVar driver_t) (log : List OsCall) :
    walkDrivers (drivers.find_name.visitor (listCore g) query) ds (found, log) =
      (⟨found.writes ++ (ds.find? (nameMatches g query)).toList⟩,
        log ++ walkCalls (nameMatches g query) ds) := by
  induction ds generalizing found log with
  | nil => simp [walkDrivers, walkCalls]
  | cons d ds ih =>
    unfold walkDrivers
    rw [visitor_listCore]
    by_cases hm : nameMatches g query d = true
    · simp [hm, walkCalls, OptVar.assign]
    · have hf : nameMatches g query d = false := by simpa using hm
      simp only [hf, Bool.false_eq_true, if_false]
      rw [ih]
      simp [walkCalls, hf, List.takeWhile_cons, List.find?_cons, List.flatMap_cons]

theorem find_name_run_eq (g : Guest) (query : Str) (log : List OsCall) :
    drivers.find_name.run (listCore g) query log =
      (⟨(g.drivers.find? (nameMatches g query)).toList⟩,
        log ++ walkCalls (nameMatches g query) g.drivers) := by
  unfold drivers.find_name.run drivers.list
  show (true, walkDrivers _ g.drivers (OptVar.empty, log)).2 = _
  rw [show (OptVar.empty : OptVar driver_t) = ⟨[]⟩ from rfl]
  simp only [walk_find_name, List.nil_append]

theorem findName_eq (g : Guest) (query : Str) :
    findName g query = g.drivers.find? (nameMatches g query) := by
  unfold findName drivers.find_name
  simp only [find_name_run_eq, OptVar.value]
  cases g.drivers.find? (nameMatches g query) <;> simp

theorem nameMatches_of_names_none (g : Guest) (query : Str) (d : driver_t)
    (h : g.names d = none) : nameMatches g query d = false := by
  simp [nameMatches, h]

theorem names_isSome_of_nameMatches (g : Guest) (query : Str) (d : driver_t)
    (h : nameMatches g query d = true) : (g.names d).isSome = true := by
  cases hn : g.names d with
  | none => simp [nameMatches, hn] at h
  | some p => rfl

theorem cstr_eq_self (s : Str) (h : 0 ∉ s) : cstr s = s := by
  induction s with
  | nil => rfl
  | cons c r ih =>
    have hc : c ≠ 0 := fun e => h (by simp [e])
    have hr : 0 ∉ r := fun e => h (by simp [e])
    rw [cstr_cons_ne c r hc, ih hr]

/-- Two guests that enumerate the same drivers and agree on the final path components
give the same result. -/
theorem findName_congr (g g' : Guest) (query : Str) (hd : g.drivers = g'.drivers)
    (hn : ∀ d, (g.names d).map fs.filename = (g'.names d).map fs.filename) :
    findName g query = findName g' query := by
  have hm : nameMatches g query = nameMatches g' query := by
    funext d
    have := hn d
    unfold nameMatches
    cases h1 : g.names d <;> cases h2 : g'.names d <;> simp [h1, h2] at this ⊢
    rw [this]
  rw [findName_eq, findName_eq, hd, hm]

/-! ## The claims on `drivers.cpp` -/

/-- C1. For every enumeration order of the backend and every NUL-terminated query,
`drivers::find_name` returns the first driver in enumeration order whose readable path has a
final path component equal to the query under ASCII case-insensitive comparison (both read
as C strings, which for strings without a NUL byte is the plain comparison), and returns
none exactly when no enumerated driver has such a path; a later duplicate is not an
error. -/
theorem find_name_first_match (g : Guest) (query : Str) :
    findName g query = g.drivers.find? (nameMatches g query) ∧
    (findName g query = none ↔ ∀ d ∈ g.drivers, nameMatches g query d = false) ∧
    (∀ d, findName g query = some d ↔
      ∃ before after, g.drivers = before ++ d :: after ∧ nameMatches g query d = true ∧
        ∀ x ∈ before, nameMatches g query x = false) ∧
    (∀ d path, g.names d = some path → 0 ∉ fs.filename path → 0 ∉ query →
      nameMatches g query d = asciiCaseEq (fs.filename path) query) := by
  refine ⟨findName_eq g query, ?_, ?_, ?_⟩
  · rw [findName_eq, List.find?_eq_none]
    simp
  · intro d
    rw [findName_eq, List.find?_eq_some]
    constructor
    · rintro ⟨hm, before, after, hd, hb⟩
      exact ⟨before, after, hd, hm, by simpa using hb⟩
    · rintro ⟨before, after, hd, hm, hb⟩
      exact ⟨hm, before, after, hd, by simpa using hb⟩
  · intro d path hn h1 h2
    simp [nameMatches, hn, cstr_eq_self _ h1, cstr_eq_self _ h2]

/-- C1 on the demonstration guest: of the two drivers named `ntfs.sys` up to case, the one
enumerated first is returned. -/
theorem find_name_first_match_demo :
    findName demoGuest (bytes "ntfs.sys") = some ⟨2⟩ ∧
    findName demoGuest (bytes "missing.sys") = none := by
  have h := find_name_first_match demoGuest (bytes "ntfs.sys")
  have h' := find_name_first_match demoGuest (bytes "missing.sys")
  refine ⟨h.1.trans (by decide), h'.1.trans (by decide)⟩

/-- C2. A driver whose name cannot be read does not abort the enumeration of
`drivers::find_name`: the result is the result on the same list with all unnamed drivers
removed, and a matching driver placed after any number of unnamed drivers is found. -/
theorem find_name_skips_unnamed (g : Guest) (query : Str) :
    findName g query =
      findName (g.withDrivers (g.drivers.filter (fun d => (g.names d).isSome))) query ∧
    (∀ unnamed d rest, g.drivers = unnamed ++ d :: rest → (∀ u ∈ unnamed, g.names u = none) →
      nameMatches g query d = true → findName g query = some d) := by
  constructor
  · rw [findName_eq, findName_eq]
    show _ = List.find? (nameMatches g query) (g.drivers.filter _)
    rw [List.find?_filter]
    congr 1
    funext d
    by_cases hm : nameMatches g query d = true
    · simp [hm, names_isSome_of_nameMatches g query d hm]
    · simp [hm]
  · intro unnamed d rest hd hu hm
    rw [findName_eq, List.find?_eq_some]
    exact ⟨hm, unnamed, rest, hd, fun u hu' => by
      simp [nameMatches_of_names_none g query u (hu u hu')]⟩

/-- C2 on the demonstration guest: the driver enumerated after the unnamed one is found. -/
theorem find_name_skips_unnamed_witness :
    findName demoGuest (bytes "ntfs.sys") = some ⟨2⟩ :=
  (find_name_skips_unnamed demoGuest (bytes "ntfs.sys")).2 [⟨1⟩] ⟨2⟩ [⟨3⟩, ⟨4⟩] rfl
    (by decide) (by decide)

/-- C5. The drivers facade adds no behaviour: `drivers::list`, `find`, `name`, `span` and
`listen_create` are, for every backend and argument, the backend call `driver_list`,
`driver_find`, `driver_name`, `driver_span` and `listen_drv_create` with the same argument
(same value, same effect on the backend); on the backend that records its calls each of
them leaves exactly one call in the record. -/
theorem drivers_facade_delegates {σ E : Type} (core : Core σ E) :
    (∀ (V : Type) (on_driver : on_driver_fn V σ) (w : V × σ),
      drivers.list core on_driver w = core.os_.driver_list on_driver w) ∧
    (∀ addr s, drivers.find core addr s = core.os_.driver_find addr s) ∧
    (∀ drv s, drivers.name core drv s = core.os_.driver_name drv s) ∧
    (∀ drv s, drivers.span core drv s = core.os_.driver_span drv s) ∧
    (∀ on_load s, drivers.listen_create core on_load s =
      core.os_.listen_drv_create on_load s) ∧
    (∀ (g : Guest) addr drv log,
      drivers.find (listCore g) addr log = (g.owner addr, log ++ [OsCall.find addr]) ∧
      drivers.name (listCore g) drv log = (g.names drv, log ++ [OsCall.name drv]) ∧
      drivers.span (listCore g) drv log = (g.spans drv, log ++ [OsCall.span drv]) ∧
      (drivers.listen_create (listCore g) () log).2 = log ++ [OsCall.listen]) :=
  ⟨fun _ _ _ => rfl, fun _ _ => rfl, fun _ _ => rfl, fun _ _ => rfl, fun _ _ => rfl,
    fun _ _ _ _ => ⟨rfl, rfl, rfl, rfl⟩⟩

/-- C6. The visitor of `drivers::find_name` answers stop on a matching driver and next on
every other one; over a backend that invokes it once per element and honours stop, the
drivers visited and whose name is queried are those before the first match (answer next)
and the first match (answer stop), no driver after it, and `found` is assigned at most
once. -/
theorem find_name_visits (g : Guest) (query : Str) :
    (∀ d found log, (drivers.find_name.visitor (listCore g) query d (found, log)).1 =
      if nameMatches g query d then walk_e.stop else walk_e.next) ∧
    (drivers.find_name.run (listCore g) query []).2 =
      walkCalls (nameMatches g query) g.drivers ∧
    (∀ before d after, g.drivers = before ++ d :: after → nameMatches g query d = true →
      (∀ x ∈ before, nameMatches g query x = false) →
      (drivers.find_name.run (listCore g) query []).2 =
        before.flatMap (fun x => [OsCall.name x, OsCall.visited x walk_e.next]) ++
          [OsCall.name d, OsCall.visited d walk_e.stop]) ∧
    ((∀ x ∈ g.drivers, nameMatches g query x = false) →
      (drivers.find_name.run (listCore g) query []).2 =
        g.drivers.flatMap (fun x => [OsCall.name x, OsCall.visited x walk_e.next])) ∧
    (drivers.find_name.run (listCore g) query []).1.writes =
      (g.drivers.find? (nameMatches g query)).toList ∧
    (drivers.find_name.run (listCore g) query []).1.writes.length ≤ 1 := by
  refine ⟨?_, ?_, ?_, ?_, ?_, ?_⟩
  · intro d found log
    rw [visitor_listCore]
    split_ifs <;> rfl
  · simp [find_name_run_eq]
  · intro before d after hd hm hb
    have ht : (before ++ d :: after).takeWhile (fun x => !nameMatches g query x) = before := by
      rw [List.takeWhile_append_of_pos (by simpa using hb)]
      simp [List.takeWhile_cons, hm]
    have hf : (before ++ d :: after).find? (nameMatches g query) = some d := by
      rw [List.find?_eq_some]
      exact ⟨hm, before, after, rfl, by simpa using hb⟩
    simp [find_name_run_eq, walkCalls, hd, ht, hf]
  · intro hall
    have ht : g.drivers.takeWhile (fun x => !nameMatches g query x) = g.drivers := by
      rw [List.takeWhile_eq_self_iff]
      simpa using hall
    have hf : g.drivers.find? (nameMatches g query) = none := by
      rw [List.find?_eq_none]
      simpa using hall
    simp [find_name_run_eq, walkCalls, ht, hf]
  · simp [find_name_run_eq]
  · simp only [find_name_run_eq]
    cases g.drivers.find? (nameMatches g query) <;> simp

/-- C6 on the demonstration guest: the unnamed driver and the first match are visited, the
two drivers after the match are not. -/
theorem find_name_visits_demo :
    (drivers.find_name.run (listCore demoGuest) (bytes "ntfs.sys") []).2 =
      [OsCall.name ⟨1⟩, OsCall.visited ⟨1⟩ walk_e.next,
        OsCall.name ⟨2⟩, OsCall.visited ⟨2⟩ walk_e.stop] := by
  have h := (find_name_visits demoGuest (bytes "ntfs.sys")).2.1
  exact h.trans (by decide)

/-- C9. `drivers::find_name` compares only the final path component: replacing the
directory part of every driver path by another one (or none), the final component kept,
does not change the result, and a query that holds a directory separator matches no
driver. -/
theorem find_name_final_component (g : Guest) (query : Str) (comp : driver_t → Option Str)
    (hcomp : ∀ d c, comp d = some c → sep ∉ c) :
    (∀ dir dir' : driver_t → Option Str,
      findName (g.withNames (fun d => (comp d).map (joinPath (dir d)))) query =
        findName (g.withNames (fun d => (comp d).map (joinPath (dir' d)))) query) ∧
    (sep ∈ cstr query →
      findName g query = none ∧ ∀ d, nameMatches g query d = false) := by
  have hj : ∀ (dir : Option Str) (c : Str), sep ∉ c → fs.filename (joinPath dir c) = c := by
    intro dir c hc
    cases dir with
    | none => exact filename_plain c hc
    | some d => exact filename_dir d c hc
  constructor
  · intro dir dir'
    apply findName_congr
    · rfl
    · intro d
      show ((comp d).map _).map fs.filename = ((comp d).map _).map fs.filename
      cases h : comp d with
      | none => rfl
      | some c => simp [hj _ c (hcomp d c h)]
  · intro hq
    have hall : ∀ d, nameMatches g query d = false := by
      intro d
      unfold nameMatches
      cases g.names d with
      | none => rfl
      | some path => exact asciiCaseEq_sep path query hq
    refine ⟨?_, hall⟩
    rw [findName_eq, List.find?_eq_none]
    intro d _
    simp [hall d]

/-- C9 at a concrete input: the driver `ntfs.sys` is found whatever its directory, and the
query `drivers/ntfs.sys` finds nothing. -/
theorem find_name_final_component_witness :
    (∀ (d : driver_t) (c : Str), demoComponents d = some c → sep ∉ c) ∧
    findName (demoGuest.withNames (fun d => (demoComponents d).map (joinPath (some (bytes "/a/b")))))
        (bytes "NTFS.SYS") =
      findName (demoGuest.withNames (fun d => (demoComponents d).map (joinPath none)))
        (bytes "NTFS.SYS") ∧
    sep ∈ cstr (bytes "drivers/ntfs.sys") ∧
    findName demoGuest (bytes "drivers/ntfs.sys") = none := by
  have hc : ∀ (d : driver_t) (c : Str), demoComponents d = some c → sep ∉ c := by
    intro d c h
    unfold demoComponents at h
    split_ifs at h
    · have e : c = bytes "ntfs.sys" := by simpa using h.symm
      subst e
      decide
  have hq : sep ∈ cstr (bytes "drivers/ntfs.sys") := by decide
  exact ⟨hc,
    (find_name_final_component demoGuest (bytes "NTFS.SYS") demoComponents hc).1
      (fun _ => some (bytes "/a/b")) (fun _ => none),
    hq,
    ((find_name_final_component demoGuest (bytes "drivers/ntfs.sys") demoComponents hc).2 hq).1⟩

/-! ## The claim on `defer.hpp` -/

theorem digitChar_inj (a b : Nat) (ha : a < 10) (hb : b < 10)
    (h : Char.ofNat (48 + a) = Char.ofNat (48 + b)) : a = b := by
  interval_cases a <;> interval_cases b <;> first | rfl | exact absurd h (by decide)

theorem map_digitChar_inj (l1 l2 : List Nat) (h1 : ∀ d ∈ l1, d < 10) (h2 : ∀ d ∈ l2, d < 10)
    (h : l1.map (fun d => Char.ofNat (48 + d)) = l2.map (fun d => Char.ofNat (48 + d))) :
    l1 = l2 := by
  induction l1 generalizing l2 with
  | nil =>
    cases l2 with
    | nil => rfl
    | cons b r => simp at h
  | cons a r ih =>
    cases l2 with
    | nil => simp at h
    | cons b r2 =>
      simp only [List.map_cons, List.cons.injEq] at h
      have hab := digitChar_inj a b (h1 a (by simp)) (h2 b (by simp)) h.1
      have hr := ih r2 (fun d hd => h1 d (by simp [hd])) (fun d hd => h2 d (by simp [hd])) h.2
      rw [hab, hr]

theorem decimal_pos (n : Nat) (hn : n ≠ 0) :
    decimal n = (Nat.digits 10 n).reverse.map (fun d => Char.ofNat (48 + d)) := by
  simp [decimal, hn]

theorem decimal_ne_zero (n : Nat) (hn : n ≠ 0) : decimal n ≠ decimal 0 := by
  intro h
  rw [decimal_pos n hn] at h
  have h0 : decimal 0 = [0].map (fun d => Char.ofNat (48 + d)) := by simp [decimal]
  rw [h0] at h
  have hd : ∀ d ∈ (Nat.digits 10 n).reverse, d < 10 := fun d hd =>
    Nat.digits_lt_base (by norm_num) (List.mem_reverse.mp hd)
  have e := map_digitChar_inj _ _ hd (by simp) h
  have e2 : Nat.digits 10 n = [0] := by
    have := congrArg List.reverse e
    simpa using this
  have hl := Nat.getLast_digit_ne_zero 10 hn
  simp [e2] at hl

/-- Distinct values of `__COUNTER__` have distinct spellings. -/
theorem decimal_injective : Function.Injective decimal := by
  intro n m h
  by_cases hn : n = 0
  · by_cases hm : m = 0
    · rw [hn, hm]
    · subst hn
      exact absurd h.symm (decimal_ne_zero m hm)
  · by_cases hm : m = 0
    · subst hm
      exact absurd h (decimal_ne_zero n hn)
    · rw [decimal_pos n hn, decimal_pos m hm] at h
      have hd : ∀ k, ∀ d ∈ (Nat.digits 10 k).reverse, d < 10 := fun k d hd =>
        Nat.digits_lt_base (by norm_num) (List.mem_reverse.mp hd)
      have e := map_digitChar_inj _ _ (hd n) (hd m) h
      exact Nat.digits.injective 10 (List.reverse_injective e)

theorem exec_fold (body : List Stmt) (s : Scope) :
    (body.foldl (fun s stmt => stmt.exec s) s).trace = s.trace ++ callsOf body ∧
    (body.foldl (fun s stmt => stmt.exec s) s).vars.map (fun v => v.2.op) =
      s.vars.map (fun v => v.2.op) ++ defersOf body ∧
    (body.foldl (fun s stmt => stmt.exec s) s).vars.map (fun v => v.1) =
      s.vars.map (fun v => v.1) ++ (List.range (defersOf body).length).map
        (fun i => "defer_".toList ++ decimal (s.counter + i)) := by
  induction body generalizing s with
  | nil => simp [callsOf, defersOf]
  | cons st rest ih =>
    obtain ⟨h1, h2, h3⟩ := ih (st.exec s)
    simp only [List.foldl_cons]
    rw [h1, h2, h3]
    cases st with
    | DEFER x =>
      simp [Stmt.exec, callsOf, defersOf, make_defer, CONCAT, CONCAT_, CONCAT__,
        List.range_succ_eq_map, Nat.add_assoc, Nat.add_comm 1, Function.comp_def]
    | call x => simp [Stmt.exec, callsOf, defersOf]

theorem exit_eq (s : Scope) : s.exit = s.trace ++ (s.vars.map (fun v => v.2.op)).reverse := by
  unfold Scope.exit
  have h : ∀ (vs : List (Spelling × defer_t Op)) (tr : List Op),
      vs.foldl (fun trace v => v.2.destroy trace) tr = tr ++ vs.map (fun v => v.2.op) := by
    intro vs
    induction vs with
    | nil => simp
    | cons v r ih =>
      intro tr
      rw [List.foldl_cons, ih]
      simp [defer_t.destroy]
  rw [h, List.map_reverse]

/-- C10. A guard declared with `DEFER(op)` invokes `op` exactly once, at the exit of the
enclosing block and not before: the invocations of a block are those of its ordinary
statements, in order, followed by the deferred operations in the reverse order of their
declaration; the guards of a block get distinct variable names `defer_N`. -/
theorem defer_runs_once_at_exit (counter : Nat) (body : List Stmt) :
    (runScope counter body).2 = callsOf body ++ (defersOf body).reverse ∧
    (∀ op, (runScope counter body).2.count op =
      (callsOf body).count op + (defersOf body).count op) ∧
    (∀ op before after, body = before ++ Stmt.DEFER op :: after →
      (runScope counter body).2 =
        (callsOf before ++ callsOf after) ++
          ((defersOf after).reverse ++ op :: (defersOf before).reverse)) ∧
    (runScope counter body).1 = (List.range (defersOf body).length).map
      (fun i => "defer_".toList ++ decimal (counter + i)) ∧
    (runScope counter body).1.Nodup ∧
    (runScope counter [Stmt.DEFER 0]).2 = [0] := by
  obtain ⟨h1, h2, h3⟩ := exec_fold body ⟨counter, [], []⟩
  have ht : (runScope counter body).2 = callsOf body ++ (defersOf body).reverse := by
    simp only [runScope, exit_eq, h1, h2, List.map_nil, List.nil_append]
  have hn : (runScope counter body).1 = (List.range (defersOf body).length).map
      (fun i => "defer_".toList ++ decimal (counter + i)) := by
    simp only [runScope, h3, List.map_nil, List.nil_append]
  refine ⟨ht, ?_, ?_, hn, ?_, ?_⟩
  · intro op
    rw [ht, List.count_append, List.count_reverse]
  · intro op before after hb
    rw [ht, hb]
    simp [callsOf, defersOf, List.filterMap_append]
  · rw [hn]
    apply List.Nodup.map _ (List.nodup_range _)
    intro i j hij
    have := decimal_injective (List.append_cancel_left hij)
    omega
  · rfl

/-- C10 at a concrete block: two guards around two ordinary statements, `__COUNTER__`
being 9 at the first `DEFER`. -/
theorem defer_runs_once_at_exit_witness :
    (runScope 9 [Stmt.DEFER 1, Stmt.call 7, Stmt.DEFER 2, Stmt.call 8]).2 = [7, 8, 2, 1] ∧
    (runScope 9 [Stmt.DEFER 1, Stmt.call 7, Stmt.DEFER 2, Stmt.call 8]).1 =
      ["defer_9".toList, "defer_10".toList] := by
  have h := defer_runs_once_at_exit 9 [Stmt.DEFER 1, Stmt.call 7, Stmt.DEFER 2, Stmt.call 8]
  refine ⟨h.1.trans (by decide), h.2.2.2.1.trans ?_⟩
  simp [defersOf, decimal, List.range_succ]

/-! ## Lemmas on the computations of the harness -/

theorem emit_run (c : Call) (tr : List Call) : emit c tr = Except.ok ((), tr ++ [c]) := rfl

theorem pure_run {α : Type} (a : α) (tr : List Call) :
    (pure a : H α) tr = Except.ok (a, tr) := rfl

theorem bind_run {α β : Type} (x : H α) (f : α → H β) (tr : List Call) :
    (x >>= f) tr = match x tr with
      | Except.ok (a, tr1) => f a tr1
      | Except.error e => Except.error e := by
  show (do let p ← x tr; f p.1 p.2 : Except Fault _) = _
  cases x tr <;> rfl

theorem map_run {α β : Type} (x : H α) (f : α → β) (tr : List Call) :
    (f <$> x) tr = match x tr with
      | Except.ok (a, tr1) => Except.ok (f a, tr1)
      | Except.error e => Except.error e := by
  show (do let p ← x tr; pure (f p.1, p.2) : Except Fault _) = _
  cases x tr <;> rfl

theorem deref_some {α : Type} (expr : String) (a : α) (tr : List Call) :
    deref expr (some a) tr = Except.ok (a, tr) := rfl

theorem deref_none {α : Type} (expr : String) (tr : List Call) :
    (deref expr (none : Option α)) tr = Except.error (Fault.empty_opt expr) := rfl

theorem FAIL_run {α : Type} (value : α) (msg : String) (tr : List Call) :
    FAIL value msg tr = Except.ok (value, tr ++ [Call.error msg]) := rfl

theorem forLoop_run (n : Nat) (tr : List Call) :
    forLoop n (do emit Call.resume; emit Call.wait) tr =
      Except.ok ((), tr ++ (List.replicate n [Call.resume, Call.wait]).flatten) := by
  induction n generalizing tr with
  | zero => simp [forLoop, pure_run]
  | succ n ih =>
    simp only [forLoop, bind_run, emit_run, ih]
    simp [List.replicate_succ]

theorem walkM_log {α : Type} (l : List α) (tr : List Call) :
    walkM test_core.log_visitor l () tr = Except.ok ((), tr) := by
  induction l with
  | nil => rfl
  | cons a r ih => simp only [walkM, bind_run, test_core.log_visitor, pure_run, ih]

theorem walkM_counter (l : List ModAnswers) (n : Nat) (tr : List Call) :
    walkM test_core.mod_counter l n tr = Except.ok (n + l.length, tr) := by
  induction l generalizing n with
  | nil => rfl
  | cons a r ih =>
    simp only [walkM, bind_run, test_core.mod_counter, pure_run, ih, List.length_cons]
    congr 2
    omega

theorem walkM_thread (env : Env) (l : List (thread_t × Option Nat)) (tr : List Call) :
    walkM (test_core.thread_visitor env) l () tr = Except.ok ((), tr) := by
  induction l with
  | nil => rfl
  | cons a r ih =>
    obtain ⟨t, rip⟩ := a
    cases rip <;> simp only [walkM, bind_run, test_core.thread_visitor, pure_run, ih]

/-- The visitor of the second module enumeration on a module it gets through: the answer
is `WALK_NEXT`. -/
theorem mod_visitor_handled (m : ModAnswers) (modi : Nat) (tr : List Call)
    (h : m.handled = true) :
    test_core.mod_visitor m modi tr =
      Except.ok ((walk_e.next, if m.name.isSome && m.span.isSome then modi + 1 else modi),
        tr ++ m.diagnostics) := by
  obtain ⟨name, span, debug_dir, debug_read, codeview, codeview_read, insert⟩ := m
  cases name <;> cases span <;> cases debug_dir <;> cases debug_read <;> cases codeview <;>
    cases codeview_read <;> cases insert <;>
    first
    | (simp [ModAnswers.handled] at h; done)
    | simp [test_core.mod_visitor, ModAnswers.diagnostics, bind_run, pure_run, map_run,
        deref_some, FAIL_run]

theorem walkM_mod_visitor (mods : List ModAnswers) (modi : Nat) (tr : List Call)
    (h : ∀ m ∈ mods, m.handled = true) :
    ∃ modi1, walkM test_core.mod_visitor mods modi tr =
      Except.ok (modi1, tr ++ mods.flatMap ModAnswers.diagnostics) := by
  induction mods generalizing modi tr with
  | nil => exact ⟨modi, by simp [walkM, pure_run]⟩
  | cons m rest ih =>
    have h1 := mod_visitor_handled m modi tr (h m (by simp))
    obtain ⟨modi2, h2⟩ := ih (if m.name.isSome && m.span.isSome then modi + 1 else modi)
      (tr ++ m.diagnostics) (fun x hx => h x (by simp [hx]))
    refine ⟨modi2, ?_⟩
    simp only [walkM, bind_run, h1, h2, List.flatMap_cons, List.append_assoc]

/-- The visitor of the second module enumeration runs into undefined behaviour exactly on
the modules that are not handled. -/
theorem mod_visitor_unhandled (m : ModAnswers) (modi : Nat) (tr : List Call)
    (h : m.handled = false) :
    test_core.mod_visitor m modi tr =
      Except.error (Fault.empty_opt (if m.debug_dir.isNone then "debug_dir" else "codeview")) := by
  obtain ⟨name, span, debug_dir, debug_read, codeview, codeview_read, insert⟩ := m
  cases name <;> cases span <;> cases debug_dir <;> cases debug_read <;> cases codeview <;>
    cases codeview_read <;> cases insert <;>
    first
    | (simp [ModAnswers.handled] at h; done)
    | simp [test_core.mod_visitor, bind_run, pure_run, map_run, deref_some, deref_none,
        FAIL_run]

/-! ## The claims on `main.cpp` -/

/-- C3 (the code departs from it). The visitor of the second module enumeration of
`test_core` checks the name, the span and the three results `ok`, and answers `WALK_NEXT`
there; it does not check the results of `get_directory_entry` and `parse_debug_dir`: on a
module without a debug directory entry, or whose CodeView record cannot be parsed, it
dereferences an empty `opt`, and no later module is visited. -/
theorem mod_visitor_empty_opt :
    test_core.mod_visitor moduleWithoutDebugDir 0 [] =
      Except.error (Fault.empty_opt "debug_dir") ∧
    test_core.mod_visitor moduleWithoutCodeView 0 [] =
      Except.error (Fault.empty_opt "codeview") ∧
    walkM test_core.mod_visitor [moduleWithoutDebugDir, moduleComplete] 0 [] =
      Except.error (Fault.empty_opt "debug_dir") ∧
    walkM test_core.mod_visitor [moduleComplete, moduleComplete] 0 [] = Except.ok (2, []) ∧
    main (demoEnv 2 true true true [moduleWithoutDebugDir, moduleComplete]) [] =
      Except.error (Fault.empty_opt "debug_dir") :=
  ⟨rfl, rfl, rfl, rfl, rfl⟩

/-- C4. `main` returns -1, after the diagnostic of the failed phase, when `argc` is not 2,
when `core::setup` fails or when `pe.setup` fails, and then calls none of `pause`,
`test_core` and `resume`; otherwise it calls them and returns 0 if and only if `test_core`
returns true; `test_core` returns false when `proc_find` finds no `notepad.exe` (the
current process, its name and the current thread, which it dereferences before the search,
being readable). -/
theorem main_exit_status (env : Env) :
    (env.argc ≠ 2 → main env [] = Except.ok (-1, [Call.error "usage: fdp_exec <name>"])) ∧
    (env.argc = 2 → env.core_setup = false →
      main env [] = Except.ok (-1,
        [Call.core_setup env.argv1, Call.error "unable to start core at \x7b\x7d"])) ∧
    (env.argc = 2 → env.core_setup = true → env.pe_setup = false →
      main env [] = Except.ok (-1, [Call.core_setup env.argv1, Call.pe_setup,
        Call.error "unable to retrieve PE format informations from pdb"])) ∧
    (env.argc = 2 → env.core_setup = true → env.pe_setup = true → ∀ valid calls,
      test_core env [Call.core_setup env.argv1, Call.pe_setup, Call.pause, Call.test_core] =
        Except.ok (valid, calls) →
      ∃ code, main env [] = Except.ok (code, calls ++ [Call.resume]) ∧
        (code = 0 ↔ valid = true)) ∧
    (∀ pc name tc calls, env.proc_current = some pc → env.proc_name pc = some name →
      env.thread_current = some tc → env.proc_find proc_target = none →
      test_core env calls = Except.ok (false, calls)) := by
  refine ⟨?_, ?_, ?_, ?_, ?_⟩
  · intro h
    simp only [main, h, ne_eq, not_false_eq_true, if_true, FAIL_run, List.nil_append]
  · intro h h2
    simp [main, h, h2, FAIL_run, bind_run, emit_run]
  · intro h h2 h3
    simp [main, h, h2, h3, FAIL_run, bind_run, emit_run]
  · intro h h2 h3 valid calls ht
    refine ⟨if valid then 0 else 1, ?_, ?_⟩
    · simp [main, h, h2, h3, bind_run, emit_run, pure_run, map_run, ht]
    · cases valid <;> simp
  · intro pc name tc calls h1 h2 h3 h4
    simp [test_core, bind_run, pure_run, map_run, walkM_log, h1, h2, h3, h4, deref_some]

/-- C4 at concrete inputs: the three failing setups and a guest without `notepad.exe`. -/
theorem main_exit_status_witness :
    main (demoEnv 1 true true true []) [] =
      Except.ok (-1, [Call.error "usage: fdp_exec <name>"]) ∧
    main (demoEnv 2 false true true []) [] = Except.ok (-1,
      [Call.core_setup (bytes "win10"), Call.error "unable to start core at \x7b\x7d"]) ∧
    main (demoEnv 2 true false true []) [] = Except.ok (-1,
      [Call.core_setup (bytes "win10"), Call.pe_setup,
        Call.error "unable to retrieve PE format informations from pdb"]) ∧
    test_core (demoEnv 2 true true false []) [] = Except.ok (false, []) ∧
    main (demoEnv 2 true true false []) [] = Except.ok (1,
      [Call.core_setup (bytes "win10"), Call.pe_setup, Call.pause, Call.test_core,
        Call.resume]) := by
  refine ⟨?_, ?_, ?_, ?_, ?_⟩
  · exact (main_exit_status (demoEnv 1 true true true [])).1 (by decide)
  · exact (main_exit_status (demoEnv 2 false true true [])).2.1 rfl rfl
  · exact (main_exit_status (demoEnv 2 true false true [])).2.2.1 rfl rfl rfl
  · exact (main_exit_status (demoEnv 2 true true false [])).2.2.2.2 ⟨4, 1⟩ (bytes "System") ⟨8⟩ []
      rfl rfl rfl rfl
  · rfl

/-- One invocation of the call-stack visitor: the counter goes up by one, one line is
logged with the old counter, and the answer is stop exactly when the new counter has
reached `cs_depth`. -/
theorem callstack_visitor_step (sym_find : Nat → Option Cursor) (callstep : callstep_t)
    (k : Int) (log : List (Int × Cursor)) :
    ∃ cursor, test_core.callstack_visitor sym_find callstep (k, log) =
      (if k + 1 ≥ cs_depth then walk_e.stop else walk_e.next, (k + 1, log ++ [(k, cursor)])) := by
  refine ⟨(match sym_find callstep.addr with
    | none => Cursor.mk "_" "_" callstep.addr
    | some c => c), ?_⟩
  simp only [test_core.callstack_visitor]
  split_ifs <;> rfl

theorem get_callstack_bound (sym_find : Nat → Option Cursor) (chain : Nat → Option callstep_t) :
    ∀ (fuel i : Nat) (log : List (Int × Cursor)), i < 40 → 40 ≤ fuel + i → log.length = i →
      log.map Prod.fst = (List.range i).map Int.ofNat →
      ∃ log1, get_callstack chain (test_core.callstack_visitor sym_find) fuel i ((i : Int), log) =
          some ((log1.length : Int), log1) ∧
        i ≤ log1.length ∧ log1.length ≤ 40 ∧
        (∀ j, i ≤ j → j < log1.length → (chain j).isSome = true) ∧
        (log1.length < 40 → chain log1.length = none) ∧
        log1.map Prod.fst = (List.range log1.length).map Int.ofNat := by
  intro fuel
  induction fuel with
  | zero => intro i log hi hf; omega
  | succ fuel ih =>
    intro i log hi hf hlen hidx
    unfold get_callstack
    cases hc : chain i with
    | none =>
      refine ⟨log, by simp [hlen], by omega, by omega, ?_, ?_, ?_⟩
      · intro j h1 h2; omega
      · intro _; rw [hlen]; exact hc
      · rw [hlen]; exact hidx
    | some callstep =>
      obtain ⟨cursor, hv⟩ := callstack_visitor_step sym_find callstep (i : Int) log
      have hlen1 : (log ++ [((i : Int), cursor)]).length = i + 1 := by simp [hlen]
      have hidx1 : (log ++ [((i : Int), cursor)]).map Prod.fst =
          (List.range (i + 1)).map Int.ofNat := by
        simp [hidx, List.range_succ]
      simp only [hv]
      by_cases h40 : (i : Int) + 1 ≥ cs_depth
      · have hi39 : i = 39 := by
          unfold cs_depth at h40
          omega
        simp only [h40, if_true]
        refine ⟨log ++ [((i : Int), cursor)], ?_, by omega, by omega, ?_, ?_, ?_⟩
        · rw [hlen1]; push_cast; rfl
        · intro j h1 h2
          have : j = i := by omega
          rw [this, hc]; rfl
        · intro h; omega
        · rw [hlen1]; exact hidx1
      · have hi38 : i + 1 < 40 := by
          unfold cs_depth at h40
          omega
        simp only [h40, if_false]
        obtain ⟨log1, e1, e2, e3, e4, e5, e6⟩ :=
          ih (i + 1) (log ++ [((i : Int), cursor)]) hi38 (by omega) hlen1 hidx1
        refine ⟨log1, ?_, by omega, e3, ?_, e5, e6⟩
        · rw [← e1]; push_cast; rfl
        · intro j h1 h2
          by_cases hj : j = i
          · rw [hj, hc]; rfl
          · exact e4 j (by omega) h2

/-- C7. The visitor given to `get_callstack` answers `WALK_NEXT` on its 1st to 39th
invocation of a hit and `WALK_STOP` on its 40th, the counter starting from 0 on each hit;
with an unwinder that stops when the visitor answers stop, the walk of a hit ends, however
long the frame chain is (endless chains included), after at most 40 callsteps: exactly 40
when the chain has that many, the whole chain otherwise. -/
theorem callstack_visitor_depth (sym_find : Nat → Option Cursor) :
    (∀ (j : Nat) callstep log, 1 ≤ j → j ≤ 39 →
      (test_core.callstack_visitor sym_find callstep ((j : Int) - 1, log)).1 = walk_e.next) ∧
    (∀ callstep log,
      (test_core.callstack_visitor sym_find callstep (((40 : Nat) : Int) - 1, log)).1 =
        walk_e.stop) ∧
    (∀ callstep k log,
      (test_core.callstack_visitor sym_find callstep (k, log)).2.1 = k + 1 ∧
      (test_core.callstack_visitor sym_find callstep (k, log)).2.2.length = log.length + 1) ∧
    (∀ (chain : Nat → Option callstep_t) (fuel : Nat), 40 ≤ fuel →
      ∃ log, test_core.on_RtlAllocateHeap sym_find chain fuel = some log ∧
        log.length ≤ 40 ∧
        (∀ j, j < log.length → (chain j).isSome = true) ∧
        (log.length < 40 → chain log.length = none) ∧
        log.map Prod.fst = (List.range log.length).map Int.ofNat) ∧
    (∀ (hits : List (Nat → Option callstep_t)),
      ∀ r ∈ hits.map (fun chain => test_core.on_RtlAllocateHeap sym_find chain 40),
        ∃ log, r = some log ∧ log.length ≤ 40) := by
  have hwalk : ∀ (chain : Nat → Option callstep_t) (fuel : Nat), 40 ≤ fuel →
      ∃ log, test_core.on_RtlAllocateHeap sym_find chain fuel = some log ∧
        log.length ≤ 40 ∧
        (∀ j, j < log.length → (chain j).isSome = true) ∧
        (log.length < 40 → chain log.length = none) ∧
        log.map Prod.fst = (List.range log.length).map Int.ofNat := by
    intro chain fuel hf
    obtain ⟨log1, e1, _, e3, e4, e5, e6⟩ :=
      get_callstack_bound sym_find chain fuel 0 [] (by omega) (by omega) rfl rfl
    refine ⟨log1, ?_, e3, fun j hj => e4 j (by omega) hj, e5, e6⟩
    simp only [Nat.cast_zero] at e1
    simp only [test_core.on_RtlAllocateHeap, e1, Option.map_some']
  refine ⟨?_, ?_, ?_, hwalk, ?_⟩
  · intro j callstep log h1 h2
    obtain ⟨cursor, hv⟩ := callstack_visitor_step sym_find callstep ((j : Int) - 1) log
    rw [hv]
    have : ¬ ((j : Int) - 1 + 1 ≥ cs_depth) := by
      unfold cs_depth
      omega
    simp only [this, if_false]
  · intro callstep log
    obtain ⟨cursor, hv⟩ := callstack_visitor_step sym_find callstep (((40 : Nat) : Int) - 1) log
    rw [hv]
    have : ((40 : Nat) : Int) - 1 + 1 ≥ cs_depth := by
      unfold cs_depth
      omega
    simp only [this, if_true]
  · intro callstep k log
    obtain ⟨cursor, hv⟩ := callstack_visitor_step sym_find callstep k log
    rw [hv]
    simp
  · intro hits r hr
    obtain ⟨chain, _, hc⟩ := List.mem_map.mp hr
    obtain ⟨log, e1, e2, _⟩ := hwalk chain 40 (le_refl 40)
    exact ⟨log, by rw [← hc, e1], e2⟩

/-- C7 at concrete inputs: on an endless frame chain the walk of a hit visits exactly 40
callsteps, on a chain of 3 frames it visits 3. -/
theorem callstack_visitor_depth_witness :
    (∃ log, test_core.on_RtlAllocateHeap (fun _ => none) (fun i => some ⟨i⟩) 40 = some log ∧
      log.length = 40) ∧
    (∃ log, test_core.on_RtlAllocateHeap (fun _ => none)
        (fun i => if i < 3 then some ⟨i⟩ else none) 40 = some log ∧ log.length = 3) := by
  constructor
  · obtain ⟨log, e1, e2, _, e4, _⟩ :=
      (callstack_visitor_depth (fun _ => none)).2.2.2.1 (fun i => some ⟨i⟩) 40 (le_refl 40)
    refine ⟨log, e1, ?_⟩
    by_contra hne
    have := e4 (by omega)
    simp at this
  · obtain ⟨log, e1, e2, e3, e4, _⟩ :=
      (callstack_visitor_depth (fun _ => none)).2.2.2.1
        (fun i => if i < 3 then some ⟨i⟩ else none) 40 (le_refl 40)
    refine ⟨log, e1, ?_⟩
    have h3 : ¬ 3 < log.length := by
      intro h
      have := e3 3 h
      simp at this
    have hlt : log.length < 40 := by omega
    have := e4 hlt
    by_contra hne
    have h2 : log.length < 3 := by omega
    simp [h2] at this

/-! ## The control calls of the harness -/

theorem test_core_found (env : Env) (target : proc_t) (tr : List Call) (hdef : env.defined)
    (ht : env.proc_find proc_target = some target) :
    ∃ ptr func_addr, env.sym_symbol "nt" "SwapContext" = some ptr ∧
      env.sym_symbol "ntdll" "RtlAllocateHeap" = some func_addr ∧
      test_core env tr = Except.ok (true,
        tr ++ callsWhenFound target ptr func_addr (env.mods.flatMap ModAnswers.diagnostics)) := by
  obtain ⟨⟨pc, hpc, hpn⟩, htc, hrest⟩ := hdef
  obtain ⟨htn, hmods, hs1, hs2⟩ := hrest target ht
  obtain ⟨pn, hpn⟩ := Option.isSome_iff_exists.mp hpn
  obtain ⟨tc, htc⟩ := Option.isSome_iff_exists.mp htc
  obtain ⟨tn, htn⟩ := Option.isSome_iff_exists.mp htn
  obtain ⟨ptr, hs1⟩ := Option.isSome_iff_exists.mp hs1
  obtain ⟨func_addr, hs2⟩ := Option.isSome_iff_exists.mp hs2
  refine ⟨ptr, func_addr, hs1, hs2, ?_⟩
  obtain ⟨modi1, hw⟩ := walkM_mod_visitor env.mods 0
    (tr ++ [Call.proc_join target join_e.JOIN_ANY_MODE] ++
      [Call.proc_join target join_e.JOIN_USER_MODE]) hmods
  simp only [test_core, bind_run, pure_run, map_run, walkM_log, walkM_counter, walkM_thread,
    hpc, hpn, htc, ht, htn, hs1, hs2, deref_some, emit_run, forLoop_run, hw]
  simp only [callsWhenFound, loopCalls, List.append_assoc, List.cons_append, List.nil_append]

theorem test_core_not_found (env : Env) (tr : List Call) (hdef : env.defined)
    (ht : env.proc_find proc_target = none) :
    test_core env tr = Except.ok (false, tr) := by
  obtain ⟨⟨pc, hpc, hpn⟩, htc, _⟩ := hdef
  obtain ⟨pn, hpn⟩ := Option.isSome_iff_exists.mp hpn
  obtain ⟨tc, htc⟩ := Option.isSome_iff_exists.mp htc
  simp [test_core, bind_run, pure_run, map_run, walkM_log, hpc, hpn, htc, ht, deref_some]

theorem diagnostics_error (mods : List ModAnswers) :
    ∀ c ∈ mods.flatMap ModAnswers.diagnostics,
      c = Call.error "Unable to read IMAGE_CODEVIEW (RSDS)" := by
  intro c hc
  obtain ⟨m, _, hm⟩ := List.mem_flatMap.mp hc
  unfold ModAnswers.diagnostics at hm
  split_ifs at hm
  · simpa using hm
  · simp at hm

theorem waitsFollowResume_skip (diag rest : List Call) (prev : Option Call)
    (hd : ∀ x ∈ diag, x ≠ Call.wait) (hr : ∀ p, waitsFollowResume p rest = true) :
    waitsFollowResume prev (diag ++ rest) = true := by
  induction diag generalizing prev with
  | nil => exact hr prev
  | cons x r ih =>
    have hx : x ≠ Call.wait := hd x (by simp)
    rw [List.cons_append, waitsFollowResume, ih (some x) (fun y hy => hd y (by simp [hy]))]
    simp [hx]

theorem waitsFollowResume_spec (calls : List Call) :
    ∀ (prev : Option Call), waitsFollowResume prev calls = true →
      ∀ before after, calls = before ++ Call.wait :: after →
        (prev.toList ++ before).getLast? = some Call.resume := by
  induction calls with
  | nil =>
    intro prev _ before after h
    simp at h
  | cons c rest ih =>
    intro prev h before after hb
    simp only [waitsFollowResume, Bool.and_eq_true, Bool.or_eq_true] at h
    cases before with
    | nil =>
      simp only [List.nil_append, List.cons.injEq] at hb
      obtain ⟨hc, _⟩ := hb
      subst hc
      have hp : prev = some Call.resume := by simpa using h.1
      simp [hp]
    | cons b before1 =>
      simp only [List.cons_append, List.cons.injEq] at hb
      obtain ⟨hc, hr⟩ := hb
      subst hc
      have := ih (some c) h.2 before1 after hr
      simp only [Option.toList] at this
      cases prev with
      | none => simpa using this
      | some p =>
        simp only [Option.toList, List.singleton_append]
        rw [List.getLast?_cons_cons]
        exact this

theorem after_of_getLast (s : ExecutionState) (before : List Call)
    (h : before.getLast? = some Call.resume) :
    s.after before = ExecutionState.Running := by
  obtain ⟨b, hb⟩ : ∃ b, before = b ++ [Call.resume] := by
    rcases List.eq_nil_or_concat before with h0 | ⟨b, x, hx⟩
    · simp [h0] at h
    · refine ⟨b, ?_⟩
      rw [hx] at h ⊢
      simp at h
      simp [h]
  rw [hb]
  simp [ExecutionState.after, List.foldl_append, ExecutionState.step]

set_option maxRecDepth 100000 in
theorem loopCalls_control (target : proc_t) (ptr func_addr : Nat) :
    (loopCalls target ptr func_addr ++ [Call.resume]).filter isControl =
      (List.replicate (16 + 3 + 100) [Call.resume, Call.wait]).flatten ++ [Call.resume] ∧
    ∀ prev, waitsFollowResume prev (loopCalls target ptr func_addr ++ [Call.resume]) = true :=
  ⟨rfl, fun _ => rfl⟩

/-- The control calls of a run past the setup in which `test_core` dereferences no empty
`opt`: under the Paused/Running model they are `pause`, then, when the target process is
found, exactly 16 + 3 + 100 pairs of `resume` and `wait`, then a last `resume`; every
`wait` comes right after a `resume`, the engine being Running, and the engine is left
Running. -/
theorem control_calls_of_defined_run (env : Env) (hargs : env.argc = 2)
    (hcore : env.core_setup = true) (hpe : env.pe_setup = true) (hdef : env.defined) :
    ∃ code calls, main env [] = Except.ok (code, calls) ∧
      calls.filter isControl =
        (if (env.proc_find proc_target).isSome then
          Call.pause :: (List.replicate (16 + 3 + 100) [Call.resume, Call.wait]).flatten ++
            [Call.resume]
        else [Call.pause, Call.resume]) ∧
      (∀ before after, calls = before ++ Call.wait :: after →
        before.getLast? = some Call.resume ∧
        ∀ s : ExecutionState, s.after before = ExecutionState.Running) ∧
      calls.getLast? = some Call.resume ∧
      ∀ s : ExecutionState, s.after calls = ExecutionState.Running := by
  cases ht : env.proc_find proc_target with
  | none =>
    have h1 := test_core_not_found env
      [Call.core_setup env.argv1, Call.pe_setup, Call.pause, Call.test_core] hdef ht
    refine ⟨1, [Call.core_setup env.argv1, Call.pe_setup, Call.pause, Call.test_core,
      Call.resume], ?_, rfl, ?_, rfl, fun s => rfl⟩
    · simp [main, hargs, hcore, hpe, bind_run, emit_run, pure_run, map_run, h1]
    · intro before after hb
      have hw : waitsFollowResume none [Call.core_setup env.argv1, Call.pe_setup, Call.pause,
          Call.test_core, Call.resume] = true := rfl
      have := waitsFollowResume_spec _ none hw before after hb
      simp only [Option.toList, List.nil_append] at this
      exact ⟨this, fun s => after_of_getLast s before this⟩
  | some target =>
    obtain ⟨ptr, func_addr, _, _, h1⟩ := test_core_found env target
      [Call.core_setup env.argv1, Call.pe_setup, Call.pause, Call.test_core] hdef ht
    obtain ⟨hc2, hc3⟩ := loopCalls_control target ptr func_addr
    have hdiag := diagnostics_error env.mods
    generalize hL : loopCalls target ptr func_addr = loops at h1 hc2 hc3
    generalize hD : env.mods.flatMap ModAnswers.diagnostics = diag at h1 hdiag
    have hm : main env [] = Except.ok (0,
        [Call.core_setup env.argv1, Call.pe_setup, Call.pause, Call.test_core,
          Call.proc_join target join_e.JOIN_ANY_MODE,
          Call.proc_join target join_e.JOIN_USER_MODE] ++ (diag ++ (loops ++ [Call.resume]))) := by
      simp only [main, hargs, hcore, hpe, bind_run, emit_run, pure_run, map_run, h1,
        callsWhenFound, hL, ne_eq, not_true_eq_false, if_false, Bool.not_true,
        Bool.false_eq_true, List.nil_append, List.append_assoc, List.cons_append, if_true]
    have hlast : ([Call.core_setup env.argv1, Call.pe_setup, Call.pause, Call.test_core,
          Call.proc_join target join_e.JOIN_ANY_MODE,
          Call.proc_join target join_e.JOIN_USER_MODE] ++
          (diag ++ (loops ++ [Call.resume]))).getLast? = some Call.resume := by
      rw [← List.append_assoc, ← List.append_assoc]
      exact List.getLast?_concat _
    refine ⟨_, _, hm, ?_, ?_, hlast, fun s => after_of_getLast s _ hlast⟩
    · have hd0 : diag.filter isControl = [] := by
        rw [List.filter_eq_nil_iff]
        intro c hc
        rw [hdiag c hc]
        decide
      rw [List.filter_append, List.filter_append, hd0, hc2]
      rfl
    · intro before after hb
      have hw : waitsFollowResume none
          (([Call.core_setup env.argv1, Call.pe_setup, Call.pause, Call.test_core,
            Call.proc_join target join_e.JOIN_ANY_MODE,
            Call.proc_join target join_e.JOIN_USER_MODE] ++ diag) ++
            (loops ++ [Call.resume])) = true := by
        apply waitsFollowResume_skip _ _ _ _ hc3
        intro x hx
        rcases List.mem_append.mp hx with h | h
        · intro e
          subst e
          simp at h
        · rw [hdiag x h]
          simp
      rw [List.append_assoc] at hw
      have := waitsFollowResume_spec _ none hw before after hb
      simp only [Option.toList, List.nil_append] at this
      exact ⟨this, fun s => after_of_getLast s before this⟩

/-- The control calls at concrete inputs: a guest in which `notepad.exe` runs, and one in
which it does not. -/
theorem control_calls_of_defined_run_demo :
    (demoEnv 2 true true true [moduleComplete]).defined ∧
    (∃ code calls, main (demoEnv 2 true true true [moduleComplete]) [] =
        Except.ok (code, calls) ∧
      calls.filter isControl =
        Call.pause :: (List.replicate 119 [Call.resume, Call.wait]).flatten ++ [Call.resume]) ∧
    (∃ code calls, main (demoEnv 2 true true false []) [] = Except.ok (code, calls) ∧
      calls.filter isControl = [Call.pause, Call.resume]) := by
  have hd : ∀ found mods, (∀ m ∈ mods, ModAnswers.handled m = true) →
      (demoEnv 2 true true found mods).defined := fun found mods hm =>
    ⟨⟨⟨4, 1⟩, rfl, rfl⟩, rfl, fun target _ => ⟨rfl, hm, rfl, rfl⟩⟩
  have h1 : ∀ m ∈ [moduleComplete], ModAnswers.handled m = true := by decide
  have h0 : ∀ m ∈ ([] : List ModAnswers), ModAnswers.handled m = true := by decide
  refine ⟨hd true _ h1, ?_, ?_⟩
  · obtain ⟨code, calls, e1, e2, _⟩ :=
      control_calls_of_defined_run (demoEnv 2 true true true [moduleComplete]) rfl rfl rfl
        (hd true _ h1)
    exact ⟨code, calls, e1, e2⟩
  · obtain ⟨code, calls, e1, e2, _⟩ :=
      control_calls_of_defined_run (demoEnv 2 true true false []) rfl rfl rfl (hd false _ h0)
    exact ⟨code, calls, e1, e2⟩

/-- C8 (the code departs from it). With the target process found, the harness does not
always reach its 16 + 3 + 100 pairs of `resume` and `wait` and its last `resume`: `test_core`
dereferences `ptr` (line 103) and `func_addr` (line 135, the same `opt` that line 133
checks) without a check, as it does the debug directory of a module; when
`sym.symbol` or the module gives an empty `opt`, the run of `main` ends in that dereference
(undefined behaviour): it returns no exit status and does not complete the sequence of
control calls. -/
theorem harness_control_sequence_broken :
    (envWithSymbols kernelSymbolsOnly).proc_find proc_target = some ⟨1200, 2⟩ ∧
    (envWithSymbols kernelSymbolsOnly).sym_symbol "nt" "SwapContext" = some 1342177279 ∧
    (envWithSymbols kernelSymbolsOnly).sym_symbol "ntdll" "RtlAllocateHeap" = none ∧
    main (envWithSymbols kernelSymbolsOnly) [] = Except.error (Fault.empty_opt "func_addr") ∧
    main (envWithSymbols (fun _ _ => none)) [] = Except.error (Fault.empty_opt "ptr") ∧
    main (demoEnv 2 true true true [moduleComplete, moduleWithoutCodeView]) [] =
      Except.error (Fault.empty_opt "codeview") ∧
    (∀ code calls, main (envWithSymbols kernelSymbolsOnly) [] ≠ Except.ok (code, calls)) := by
  have h : main (envWithSymbols kernelSymbolsOnly) [] =
      Except.error (Fault.empty_opt "func_addr") := by
    simp only [main, test_core, envWithSymbols, kernelSymbolsOnly, bind_run, emit_run,
      pure_run, map_run, walkM_log, walkM_counter, walkM_thread, deref_some, forLoop_run,
      proc_target]
    rfl
  refine ⟨rfl, rfl, rfl, h, rfl, rfl, ?_⟩
  intro code calls hc
  rw [h] at hc
  cases hc

end Icebox
